import Mathlib

/-!
Verification of the plate-detection pipeline.

Shallow embedding of `plate_detector.py` (class `WorkingPlateDetector`:
`_safe_conf`, `clean_text`, `is_valid_plate`, `ocr_region`, `detect_plate`,
`preprocess_image`) and of `routes/detection_routes.py`
(`clean_and_validate_plate_text` and the running-best tracking of the
`/detect` endpoint).

Machine reals of the Python code are modelled as rationals (ℚ); all the
arithmetic the pipeline performs on confidences (division by 100, clamping,
comparisons) is exact on the values the claims mention, so ℚ is faithful.
Strings are modelled through their character lists.
-/

/-! ### Character classes

The regex classes `[A-Z]`, `[0-9]` / `\d` and `\s` of the source, as explicit
character lists so that facts about them can be settled by enumeration.
`\d` and `\s` are ASCII approximations of Python's unicode classes; every
string the pipeline feeds to these checks is ASCII by construction
(output of the cleaning regexes), so the approximation is exact there.
-/

def asciiUpper : List Char :=
  ['A','B','C','D','E','F','G','H','I','J','K','L','M',
   'N','O','P','Q','R','S','T','U','V','W','X','Y','Z']

def asciiDigit : List Char :=
  ['0','1','2','3','4','5','6','7','8','9']

def isUp (c : Char) : Bool := decide (c ∈ asciiUpper)

def isDig (c : Char) : Bool := decide (c ∈ asciiDigit)

def isSpaceChar (c : Char) : Bool :=
  decide (c ∈ [' ', '\t', '\n', '\r', '\x0b', '\x0c'])

/-- Python's `str.strip()` on a character list: drop whitespace at both ends. -/
def pyStrip (l : List Char) : List Char :=
  ((l.dropWhile isSpaceChar).reverse.dropWhile isSpaceChar).reverse

/-! ### `WorkingPlateDetector._safe_conf` (plate_detector.py lines 61-73) -/

/-- Value of an unsigned decimal digit string (big-endian). -/
def digitsVal (l : List Char) : ℕ :=
  l.foldl (fun a c => 10 * a + (c.toNat - 48)) 0

/-- Python's `float(s)` on decimal literals, as `Option ℚ`:
optional sign, integer part, optional `.` and fractional part; `none` models
the `ValueError` branch.  (`float` also accepts exponents, `inf` and `nan`;
those inputs are not needed by any claim and all of them still clamp into
`[0,1]` in `_safe_conf`, so restricting to decimal literals is harmless.) -/
def parseDecL (l : List Char) : Option ℚ :=
  let sign : ℚ := if l.head? = some '-' then -1 else 1
  let l2 := if l.head? = some '-' ∨ l.head? = some '+' then l.tail else l
  let ip := l2.takeWhile isDig
  let rest := l2.dropWhile isDig
  match rest with
  | [] => if ip.isEmpty then none else some (sign * (digitsVal ip : ℚ))
  | '.' :: fr =>
      if fr.all isDig && !(ip.isEmpty && fr.isEmpty) then
        some (sign * ((digitsVal ip : ℚ) + (digitsVal fr : ℚ) / (((10 : ℕ) ^ fr.length : ℕ) : ℚ)))
      else none
  | _ => none

/-- Python's binary `max`: the second argument only when strictly greater. -/
def pyMax (a b : ℚ) : ℚ := if a < b then b else a

/-- Python's binary `min`: the second argument only when strictly smaller. -/
def pyMin (a b : ℚ) : ℚ := if b < a then b else a

/-- A raw confidence value as handed to `_safe_conf`: Python `None`, a string
(tesseract reports confidences as strings), or a number. -/
inductive ConfInput where
  | none
  | str (s : String)
  | num (q : ℚ)

/-- `self.min_confidence = 0.5` (plate_detector.py line 15). -/
def min_confidence : ℚ := 1/2

/-- `WorkingPlateDetector._safe_conf`: `None` ↦ 0; strip, reject `""`/`"-1"`;
parse as float (failure ↦ 0); divide by 100 if above 1; clamp to `[0,1]`.
For a numeric input, `str(val)` round-trips through the decimal form, so the
`.num` branch applies the same scaling and clamp directly (a numeric `val`
never prints as `""` or `"-1"`: `str(-1.0)` is `"-1.0"`, and `-1.0` clamps
to `0` just the same). -/
def safe_conf : ConfInput → ℚ
  | ConfInput.none => 0
  | ConfInput.str s =>
      let t := pyStrip s.data
      if t = [] ∨ t = ['-', '1'] then 0
      else
        match parseDecL t with
        | Option.none => 0
        | Option.some v => pyMax 0 (pyMin 1 (if 1 < v then v / 100 else v))
  | ConfInput.num q => pyMax 0 (pyMin 1 (if 1 < q then q / 100 else q))

/-! ### `WorkingPlateDetector.clean_text` (plate_detector.py lines 75-86) -/

/-- The `str.maketrans`/`translate` table normalizing Arabic-Indic and
Extended-Arabic digits to ASCII. -/
def transDigit (c : Char) : Char :=
  match c with
  | '٠' => '0' | '١' => '1' | '٢' => '2' | '٣' => '3' | '٤' => '4'
  | '٥' => '5' | '٦' => '6' | '٧' => '7' | '٨' => '8' | '٩' => '9'
  | '۰' => '0' | '۱' => '1' | '۲' => '2' | '۳' => '3' | '۴' => '4'
  | '۵' => '5' | '۶' => '6' | '۷' => '7' | '۸' => '8' | '۹' => '9'
  | _ => c

/-- The class kept by `re.sub(r'[^A-Z0-9\-\s]', '', s)`. -/
def keepClass (c : Char) : Bool := isUp c || isDig c || c == '-' || isSpaceChar c

/-- The class removed by `re.sub(r'[\-\s]+', '', s)`. -/
def stripClass (c : Char) : Bool := (c == '-') || isSpaceChar c

/-- `clean_text` on the character list: translate digits, uppercase, keep only
`[A-Z0-9\-\s]`, then delete every hyphen and whitespace character.
`Char.toUpper` is the ASCII case map; every character it could disagree with
Python's `str.upper` on is deleted by the `[^A-Z0-9\-\s]` filter either way. -/
def cleanList (l : List Char) : List Char :=
  (((l.map transDigit).map Char.toUpper).filter keepClass).filter
    (fun c => !(stripClass c))

/-- `WorkingPlateDetector.clean_text` (`if not text: return ""` then the
regex pipeline). -/
def clean_text (text : String) : String :=
  if text = "" then "" else String.mk (cleanList text.data)

/-! ### `WorkingPlateDetector.is_valid_plate` (plate_detector.py lines 88-108)

Each regex of the `patterns` list is decided by decomposing the string at the
(unique) boundaries between its disjoint character classes: `takeWhile` on a
class yields exactly the block the anchored regex must consume, because the
classes `[A-Z]` and `\d` are disjoint. -/

/-- `r'^[A-Z]{1,4}\d{1,4}$'`. -/
def patLetDig (l : List Char) : Bool :=
  let lhs := l.takeWhile isUp
  let rhs := l.dropWhile isUp
  decide (1 ≤ lhs.length ∧ lhs.length ≤ 4 ∧ 1 ≤ rhs.length ∧ rhs.length ≤ 4) &&
    rhs.all isDig

/-- `r'^\d{1,4}[A-Z]{1,4}$'`. -/
def patDigLet (l : List Char) : Bool :=
  let lhs := l.takeWhile isDig
  let rhs := l.dropWhile isDig
  decide (1 ≤ lhs.length ∧ lhs.length ≤ 4 ∧ 1 ≤ rhs.length ∧ rhs.length ≤ 4) &&
    rhs.all isUp

/-- `r'^[A-Z]{1,2}\d{1,4}[A-Z]{0,2}$'`. -/
def patLetDigLet (l : List Char) : Bool :=
  let lhs := l.takeWhile isUp
  let r1 := l.dropWhile isUp
  let mid := r1.takeWhile isDig
  let rhs := r1.dropWhile isDig
  decide (1 ≤ lhs.length ∧ lhs.length ≤ 2 ∧ 1 ≤ mid.length ∧ mid.length ≤ 4 ∧
    rhs.length ≤ 2) && rhs.all isUp

/-- `r'^[A-Z0-9]{3,10}$'` (the fallback pattern; note its upper bound is 10,
not 12). -/
def patAlnum (l : List Char) : Bool :=
  decide (3 ≤ l.length ∧ l.length ≤ 10) && l.all (fun c => isUp c || isDig c)

/-- `WorkingPlateDetector.is_valid_plate`: non-empty, length within `[3,12]`,
at least one letter or digit, and at least one of the four patterns matches.
`Char.isAlpha`/`Char.isDigit` stand in for Python's `str.isalpha`/`str.isdigit`
(identical on the ASCII strings this pipeline produces). -/
def is_valid_plate (s : String) : Bool :=
  if s = "" then false
  else if s.data.length < 3 || s.data.length > 12 then false
  else if !(s.data.any Char.isAlpha || s.data.any Char.isDigit) then false
  else
    patLetDig s.data || patDigLet s.data || patLetDigLet s.data ||
      patAlnum s.data

/-! ### `clean_and_validate_plate_text` (routes/detection_routes.py lines 51-164)

The endpoint's cleaning/correction/validation helper: keep `[A-Z0-9]` of the
uppercased text, reject if shorter than 3, apply the two character-confusion
rules, then validate against the Lebanese patterns with a permissive
fallback. -/

/-- `re.sub(r'[^A-Z0-9]', '', text.upper())` on the character list. -/
def cleanUpperAlnum (l : List Char) : List Char :=
  (l.map Char.toUpper).filter (fun c => isUp c || isDig c)

/-- `first_char_corrections`: first-position digit→letter remap; characters
outside the table are kept (the `if first_char in ...` guard). -/
def firstFix (c : Char) : Char :=
  match c with
  | '1' => 'I' | '2' => 'Z' | '6' => 'G' | '0' => 'O' | '8' => 'B'
  | '5' => 'S' | '7' => 'T' | '3' => 'E' | '4' => 'A' | '9' => 'Q'
  | _ => c

/-- `other_chars_corrections`: trailing-position letter→digit remap.
In the source dict the key `'Q'` appears twice (`'Q': '0'` next to `'O'`, then
`'Q': '9'` at the end); Python keeps the later binding, so `Q ↦ 9` here. -/
def otherFix (c : Char) : Option Char :=
  match c with
  | 'I' => some '1' | 'L' => some '1' | 'O' => some '0' | 'Z' => some '2'
  | 'E' => some '3' | 'A' => some '4' | 'S' => some '5' | 'G' => some '6'
  | 'T' => some '7' | 'B' => some '8' | 'Q' => some '9' | 'D' => some '0'
  | 'U' => some '0' | 'J' => some '1' | 'V' => some '1' | 'Y' => some '7'
  | 'X' => some '7' | 'M' => some '1' | 'N' => some '1' | 'H' => some '1'
  | 'K' => some '1' | 'P' => some '9' | 'R' => some '2' | 'F' => some '7'
  | 'W' => some '7' | 'C' => some '0'
  | _ => none

/-- The per-character trailing rule: digits kept, confusable letters become
digits, anything else kept as-is. -/
def restFix (c : Char) : Char :=
  if isDig c then c
  else
    match otherFix c with
    | some d => d
    | none => c

/-- The whole character-confusion correction: first-character rule at
position 0, trailing rule on every later position. -/
def apply_rules (l : List Char) : List Char :=
  match l with
  | [] => []
  | c :: rest => firstFix c :: rest.map restFix

/-- `r'^[A-Z]\d{5,7}$'`. -/
def rpatA (l : List Char) : Bool :=
  match l with
  | c :: rest =>
      isUp c && rest.all isDig && decide (5 ≤ rest.length ∧ rest.length ≤ 7)
  | [] => false

/-- `r'^\d{5,8}$'`. -/
def rpatB (l : List Char) : Bool :=
  l.all isDig && decide (5 ≤ l.length ∧ l.length ≤ 8)

/-- `r'^[A-Z]{2}\d{4,6}$'`. -/
def rpatC (l : List Char) : Bool :=
  match l with
  | a :: b :: rest =>
      isUp a && isUp b && rest.all isDig &&
        decide (4 ≤ rest.length ∧ rest.length ≤ 6)
  | _ => false

/-- An optional single trailing `[A-Z]?`. -/
def optUpTail (l : List Char) : Bool :=
  match l with
  | [] => true
  | [x] => isUp x
  | _ => false

/-- `r'^[A-Z]\d{3,6}[A-Z]?$'`. -/
def rpatD (l : List Char) : Bool :=
  match l with
  | c :: rest =>
      let mid := rest.takeWhile isDig
      let tl := rest.dropWhile isDig
      isUp c && decide (3 ≤ mid.length ∧ mid.length ≤ 6) && optUpTail tl
  | [] => false

/-- `r'^\d{4,7}[A-Z]?$'`. -/
def rpatE (l : List Char) : Bool :=
  let mid := l.takeWhile isDig
  let tl := l.dropWhile isDig
  decide (4 ≤ mid.length ∧ mid.length ≤ 7) && optUpTail tl

/-- Any of the five Lebanese plate patterns. -/
def routeAnyPat (l : List Char) : Bool :=
  rpatA l || rpatB l || rpatC l || rpatD l || rpatE l

/-- `clean_and_validate_plate_text`.  The pattern loop returns the corrected
text as soon as some pattern matches and the length is within `[4,8]` (the
length test is the same for every pattern, so the loop reduces to the
conjunction); otherwise the permissive fallback accepts any `[4,8]`-length
text with at least 3 digits. -/
def clean_and_validate_plate_text (text : String) : Option String :=
  if text = "" then none
  else
    let cl := cleanUpperAlnum text.data
    if cl.length < 3 then none
    else
      let fin := apply_rules cl
      if routeAnyPat fin ∧ 4 ≤ fin.length ∧ fin.length ≤ 8 then
        some (String.mk fin)
      else if 4 ≤ fin.length ∧ fin.length ≤ 8 ∧
          3 ≤ (fin.filter isDig).length then
        some (String.mk fin)
      else none

/-! ### `WorkingPlateDetector.preprocess_image` (plate_detector.py lines 39-59)

The cv2 transform chain (copy, grayscale, resize, blur, CLAHE, threshold,
morphology) is abstracted as a fallible function `pipeline` on an opaque image
type; `Except.error` models any exception raised inside the `try`.  The
embedding is pure, which reflects that the source works on `image.copy()` and
never writes into the input buffer. -/

def preprocess_image {α : Type} (pipeline : α → Except Unit α) (image : α) : α :=
  match pipeline image with
  | Except.ok result => result
  | Except.error _ => image

/-! ### `WorkingPlateDetector.ocr_region` (plate_detector.py lines 110-163)

The recognizer (tesseract) is abstracted as the token lists it returns: the
main `configs` loop walks one list of `(text, conf)` tokens (the four config
passes concatenated, which folds identically to the nested source loops since
the running best is threaded through), and each rotation attempt yields either
`none` (the swallowed per-angle exception) or its own token list. -/

/-- One raw recognizer token: the `text[i]` / `conf[i]` pair
(`conf` is `None` when `i` is out of range of the conf list). -/
structure Tok where
  text : String
  conf : ConfInput

/-- A token survives all the per-token guards of the loop body: non-blank
text, normalized confidence at least `min_confidence`, and cleaned text that
validates.  These are exactly the conditions under which a token can become
the running best. -/
def accept (t : Tok) : Prop :=
  pyStrip t.text.data ≠ [] ∧ min_confidence ≤ safe_conf t.conf ∧
    is_valid_plate (clean_text t.text) = true

instance (t : Tok) : Decidable (accept t) := by
  unfold accept; infer_instance

/-- Python truthiness of the running `best_text`: `None` and `""` are falsy. -/
def pyFalsy (o : Option String) : Bool :=
  match o with
  | Option.none => true
  | Option.some s => s == ""

/-- The body of the main token loop of `ocr_region`: skip blank text, skip
low confidence, then replace the running best only when the cleaned text
validates and the confidence is strictly greater. -/
def ocrStep (b : Option String × ℚ) (t : Tok) : Option String × ℚ :=
  if pyStrip t.text.data = [] then b
  else if safe_conf t.conf < min_confidence then b
  else if is_valid_plate (clean_text t.text) = true ∧ b.2 < safe_conf t.conf then
    (some (clean_text t.text), safe_conf t.conf)
  else b

/-- The inner token loop of a rotation attempt: same guards as `ocrStep`, but
with a `break` immediately after the first replacement. -/
def rotTokens (b : Option String × ℚ) : List Tok → Option String × ℚ
  | [] => b
  | t :: ts =>
    if pyStrip t.text.data = [] then rotTokens b ts
    else if safe_conf t.conf < min_confidence then rotTokens b ts
    else if is_valid_plate (clean_text t.text) = true ∧ b.2 < safe_conf t.conf then
      (some (clean_text t.text), safe_conf t.conf)
    else rotTokens b ts

/-- The angle loop of the rotation fallback: a `none` entry is a per-angle
exception (`except: continue`); after a successful pass the loop breaks as
soon as `best_text` is truthy. -/
def rotAngles (b : Option String × ℚ) : List (Option (List Tok)) → Option String × ℚ
  | [] => b
  | Option.none :: rest => rotAngles b rest
  | Option.some ts :: rest =>
    let b2 := rotTokens b ts
    if pyFalsy b2.1 then rotAngles b2 rest else b2

/-- The recognizer input of one `ocr_region` call: `fail` is an exception in
the outer `try` (returning `(None, 0.0)`), otherwise the main token list and
the rotation attempts. -/
inductive Region where
  | fail
  | ok (main : List Tok) (rots : List (Option (List Tok)))

/-- `WorkingPlateDetector.ocr_region`: fold the main loop from
`(None, 0.0)`; if no best was found (`if not best_text`), run the rotation
fallback. -/
def ocr_region : Region → Option String × ℚ
  | Region.fail => (Option.none, 0)
  | Region.ok main rots =>
    let b := main.foldl ocrStep (Option.none, 0)
    if pyFalsy b.1 then rotAngles b rots else b

/-! ### `WorkingPlateDetector.detect_plate` (plate_detector.py lines 165-225) -/

/-- The per-region body of `detect_plate`'s loops:
`txt, conf = self.ocr_region(region); if txt and conf > best_conf: replace`. -/
def detStep (b : Option String × ℚ) (r : Region) : Option String × ℚ :=
  let p := ocr_region r
  if pyFalsy p.1 = false ∧ b.2 < p.2 then p else b

/-- The tiled fallback scan, tiles in row-major order: after a replacement
that reaches `best_conf >= 0.9` both loops break.  (The running best entering
this phase is below `9/10` — it is `(None, 0.0)` in `detect_plate` — and a
step without replacement leaves it unchanged, so checking the bound after
every step is the same stopping rule as the source's
break-inside-the-update.) -/
def tileGo (b : Option String × ℚ) : List Region → Option String × ℚ
  | [] => b
  | r :: rs =>
    let b2 := detStep b r
    if 9/10 ≤ b2.2 then b2 else tileGo b2 rs

/-- `WorkingPlateDetector.detect_plate`: `(None, 0.0)` when tesseract was not
found (`self.initialized` false); otherwise fold the contour candidates, then
— only if no best was found — the tile scan, then — only if still none — a
final full-image attempt.  The geometric work (resizing, Canny, contour
filtering, tiling) only determines which regions are fed to `ocr_region`, so
the regions of each stage are the model's inputs. -/
def detect_plate (ready : Bool) (cands tiles : List Region) (full : Region) :
    Option String × ℚ :=
  if ready = false then (Option.none, 0)
  else
    let b1 := cands.foldl detStep (Option.none, 0)
    if pyFalsy b1.1 = false then b1
    else
      let b2 := tileGo b1 tiles
      if pyFalsy b2.1 = false then b2
      else detStep b2 full

/-- The endpoint's running-best update in `detection_routes.detect_plate`
(lines 269-293): a candidate is a `(plate_text, score)` pair coming out of
`clean_and_validate_plate_text` and the YOLO/OCR score blend;
`if plate_text: ... if score > best_conf: replace`. -/
def routeStep (b : Option String × ℚ) (p : Option String × ℚ) :
    Option String × ℚ :=
  if pyFalsy p.1 = false ∧ b.2 < p.2 then p else b

/-! ### Basic facts about the Python `max`/`min` and `_safe_conf` -/

theorem le_pyMax_left (a b : ℚ) : a ≤ pyMax a b := by
  unfold pyMax
  split_ifs with h
  · exact le_of_lt h
  · exact le_refl a

theorem pyMax_le {a b c : ℚ} (h1 : a ≤ c) (h2 : b ≤ c) : pyMax a b ≤ c := by
  unfold pyMax
  split_ifs <;> assumption

theorem pyMin_le_left (a b : ℚ) : pyMin a b ≤ a := by
  unfold pyMin
  split_ifs with h
  · exact le_of_lt h
  · exact le_refl a

/-- `_safe_conf` always lands in `[0,1]`. -/
theorem safe_conf_mem (v : ConfInput) : 0 ≤ safe_conf v ∧ safe_conf v ≤ 1 := by
  cases v with
  | none => exact ⟨le_refl 0, by show (0:ℚ) ≤ 1; norm_num⟩
  | str s =>
      simp only [safe_conf]
      split_ifs
      · exact ⟨le_refl 0, by norm_num⟩
      · cases parseDecL (pyStrip s.data) with
        | none => exact ⟨le_refl 0, by norm_num⟩
        | some v =>
            exact ⟨le_pyMax_left 0 _,
              pyMax_le (by norm_num) (pyMin_le_left 1 _)⟩
  | num q =>
      exact ⟨le_pyMax_left 0 _, pyMax_le (by norm_num) (pyMin_le_left 1 _)⟩

/-! ### Enumeration helpers for the ASCII classes -/

theorem up_forall {p : Char → Bool} (hall : asciiUpper.all p = true) :
    ∀ c, isUp c = true → p c = true := by
  intro c hc
  exact List.all_eq_true.mp hall c (of_decide_eq_true hc)

theorem dig_forall {p : Char → Bool} (hall : asciiDigit.all p = true) :
    ∀ c, isDig c = true → p c = true := by
  intro c hc
  exact List.all_eq_true.mp hall c (of_decide_eq_true hc)

theorem upDig_forall {p : Char → Bool}
    (hall : (asciiUpper ++ asciiDigit).all p = true) :
    ∀ c, (isUp c || isDig c) = true → p c = true := by
  intro c hc
  rcases Bool.or_eq_true_iff.mp hc with h | h
  · exact List.all_eq_true.mp hall c
      (List.mem_append.mpr (Or.inl (of_decide_eq_true h)))
  · exact List.all_eq_true.mp hall c
      (List.mem_append.mpr (Or.inr (of_decide_eq_true h)))

/-! ### The running-best invariant

`GoodSt` is the invariant every best-tracking state of the detector
satisfies: a missing best comes with confidence exactly `0`, and a present
best is a validated plate whose confidence lies in `[min_confidence, 1]`. -/

def GoodSt (s : Option String × ℚ) : Prop :=
  (s.1 = Option.none → s.2 = 0) ∧
  ∀ tx, s.1 = Option.some tx →
    is_valid_plate tx = true ∧ min_confidence ≤ s.2 ∧ s.2 ≤ 1

theorem goodSt_init : GoodSt (Option.none, 0) :=
  ⟨fun _ => rfl, fun _tx h => Option.noConfusion h⟩

theorem ocrStep_good {b : Option String × ℚ} (t : Tok) (hb : GoodSt b) :
    GoodSt (ocrStep b t) := by
  unfold ocrStep
  split_ifs with h1 h2 h3
  · exact hb
  · exact hb
  · refine ⟨fun hnone => Option.noConfusion hnone, fun tx htx => ?_⟩
    injection htx with he
    exact ⟨he ▸ h3.1, not_lt.mp h2, (safe_conf_mem t.conf).2⟩
  · exact hb

theorem fold_ocrStep_good (l : List Tok) :
    ∀ b : Option String × ℚ, GoodSt b → GoodSt (l.foldl ocrStep b) := by
  induction l with
  | nil => exact fun b hb => hb
  | cons t ts ih =>
      intro b hb
      exact ih (ocrStep b t) (ocrStep_good t hb)

theorem rotTokens_good (ts : List Tok) {b : Option String × ℚ}
    (hb : GoodSt b) : GoodSt (rotTokens b ts) := by
  induction ts with
  | nil => exact hb
  | cons t tl ih =>
      unfold rotTokens
      split_ifs with h1 h2 h3
      · exact ih
      · exact ih
      · refine ⟨fun hnone => Option.noConfusion hnone, fun tx htx => ?_⟩
        injection htx with he
        exact ⟨he ▸ h3.1, not_lt.mp h2, (safe_conf_mem t.conf).2⟩
      · exact ih

theorem rotAngles_good (rots : List (Option (List Tok))) :
    ∀ b : Option String × ℚ, GoodSt b → GoodSt (rotAngles b rots) := by
  induction rots with
  | nil => exact fun b hb => hb
  | cons o rest ih =>
      intro b hb
      cases o with
      | none => exact ih b hb
      | some ts =>
          show GoodSt
            (if pyFalsy (rotTokens b ts).1 then rotAngles (rotTokens b ts) rest
             else rotTokens b ts)
          split_ifs with h
          · exact ih _ (rotTokens_good ts hb)
          · exact rotTokens_good ts hb

theorem ocr_region_good (r : Region) : GoodSt (ocr_region r) := by
  cases r with
  | fail => exact goodSt_init
  | ok main rots =>
      show GoodSt
        (if pyFalsy (main.foldl ocrStep (Option.none, 0)).1 then
          rotAngles (main.foldl ocrStep (Option.none, 0)) rots
         else main.foldl ocrStep (Option.none, 0))
      split_ifs with h
      · exact rotAngles_good rots _ (fold_ocrStep_good main _ goodSt_init)
      · exact fold_ocrStep_good main _ goodSt_init

theorem detStep_good {b : Option String × ℚ} (r : Region) (hb : GoodSt b) :
    GoodSt (detStep b r) := by
  show GoodSt (if pyFalsy (ocr_region r).1 = false ∧ b.2 < (ocr_region r).2
    then ocr_region r else b)
  split_ifs with h
  · exact ocr_region_good r
  · exact hb

theorem fold_detStep_good (l : List Region) :
    ∀ b : Option String × ℚ, GoodSt b → GoodSt (l.foldl detStep b) := by
  induction l with
  | nil => exact fun b hb => hb
  | cons r rs ih =>
      intro b hb
      exact ih (detStep b r) (detStep_good r hb)

theorem tileGo_good (l : List Region) :
    ∀ b : Option String × ℚ, GoodSt b → GoodSt (tileGo b l) := by
  induction l with
  | nil => exact fun b hb => hb
  | cons r rs ih =>
      intro b hb
      show GoodSt (if 9/10 ≤ (detStep b r).2 then detStep b r
        else tileGo (detStep b r) rs)
      split_ifs with h
      · exact detStep_good r hb
      · exact ih _ (detStep_good r hb)

theorem detect_plate_good (ready : Bool) (cands tiles : List Region)
    (full : Region) : GoodSt (detect_plate ready cands tiles full) := by
  show GoodSt (if ready = false then (Option.none, 0)
    else if pyFalsy (cands.foldl detStep (Option.none, 0)).1 = false then
      cands.foldl detStep (Option.none, 0)
    else if pyFalsy (tileGo (cands.foldl detStep (Option.none, 0)) tiles).1
        = false then
      tileGo (cands.foldl detStep (Option.none, 0)) tiles
    else detStep (tileGo (cands.foldl detStep (Option.none, 0)) tiles) full)
  split_ifs with h1 h2 h3
  · exact goodSt_init
  · exact fold_detStep_good cands _ goodSt_init
  · exact tileGo_good tiles _ (fold_detStep_good cands _ goodSt_init)
  · exact detStep_good full
      (tileGo_good tiles _ (fold_detStep_good cands _ goodSt_init))

/-- For an invariant-satisfying state the Python truthiness test on
`best_text` is exactly the `none` test: a tracked best is a validated plate
and the empty string never validates. -/
theorem goodSt_falsy {s : Option String × ℚ} (h : GoodSt s) :
    pyFalsy s.1 = true ↔ s.1 = Option.none := by
  cases hs : s.1 with
  | none => simp [pyFalsy]
  | some tx =>
      have hv := (h.2 tx hs).1
      have htx : ¬ tx = "" := by
        intro he
        rw [he] at hv
        exact absurd hv (by decide)
      simp [pyFalsy, htx]

/-- A `GoodSt` state with no tracked best is exactly `(None, 0.0)`. -/
theorem goodSt_none_eq {s : Option String × ℚ} (h : GoodSt s)
    (hn : s.1 = Option.none) : s = (Option.none, 0) := by
  have h2 := h.1 hn
  cases s with
  | mk a b =>
      simp only at hn h2
      rw [hn, h2]

/-! ### No strategy produces a valid candidate -/

/-- No token of the region (neither in the main pass nor in any rotation
attempt) passes all the per-token guards, i.e. no strategy run on this region
yields a valid candidate. -/
def regionNoValid (r : Region) : Prop :=
  match r with
  | Region.fail => True
  | Region.ok main rots =>
      (∀ t ∈ main, ¬ accept t) ∧
      ∀ o ∈ rots, ∀ t ∈ o.getD [], ¬ accept t

theorem ocrStep_not_accept {b : Option String × ℚ} {t : Tok}
    (h : ¬ accept t) : ocrStep b t = b := by
  unfold ocrStep
  split_ifs with h1 h2 h3
  · rfl
  · rfl
  · exact absurd ⟨h1, not_lt.mp h2, h3.1⟩ h
  · rfl

theorem fold_ocrStep_noacc {main : List Tok}
    (h : ∀ t ∈ main, ¬ accept t) :
    ∀ b : Option String × ℚ, main.foldl ocrStep b = b := by
  induction main with
  | nil => exact fun b => rfl
  | cons t ts ih =>
      intro b
      rw [List.foldl_cons, ocrStep_not_accept (h t (List.mem_cons_self t ts))]
      exact ih (fun x hx => h x (List.mem_cons_of_mem t hx)) b

theorem rotTokens_noacc {ts : List Tok} (h : ∀ t ∈ ts, ¬ accept t)
    (b : Option String × ℚ) : rotTokens b ts = b := by
  induction ts with
  | nil => rfl
  | cons t tl ih =>
      unfold rotTokens
      split_ifs with h1 h2 h3
      · exact ih (fun x hx => h x (List.mem_cons_of_mem t hx))
      · exact ih (fun x hx => h x (List.mem_cons_of_mem t hx))
      · exact absurd ⟨h1, not_lt.mp h2, h3.1⟩ (h t (List.mem_cons_self t tl))
      · exact ih (fun x hx => h x (List.mem_cons_of_mem t hx))

theorem rotAngles_noacc {rots : List (Option (List Tok))}
    (h : ∀ o ∈ rots, ∀ t ∈ o.getD [], ¬ accept t) :
    ∀ b : Option String × ℚ, rotAngles b rots = b := by
  induction rots with
  | nil => exact fun b => rfl
  | cons o rest ih =>
      intro b
      have hrest : ∀ o ∈ rest, ∀ t ∈ o.getD [], ¬ accept t :=
        fun x hx => h x (List.mem_cons_of_mem o hx)
      cases o with
      | none => exact ih hrest b
      | some ts =>
          have hts : rotTokens b ts = b :=
            rotTokens_noacc (h (some ts) (List.mem_cons_self _ rest)) b
          show (if pyFalsy (rotTokens b ts).1 then
            rotAngles (rotTokens b ts) rest else rotTokens b ts) = b
          rw [hts]
          split_ifs with hf
          · exact ih hrest b
          · rfl

theorem ocr_region_noValid {r : Region} (h : regionNoValid r) :
    ocr_region r = (Option.none, 0) := by
  cases r with
  | fail => rfl
  | ok main rots =>
      have hmain : main.foldl ocrStep (Option.none, 0) = (Option.none, 0) :=
        fold_ocrStep_noacc h.1 _
      show (if pyFalsy (main.foldl ocrStep (Option.none, 0)).1 then
        rotAngles (main.foldl ocrStep (Option.none, 0)) rots
        else main.foldl ocrStep (Option.none, 0)) = (Option.none, 0)
      rw [hmain]
      rw [if_pos (show pyFalsy Option.none = true from rfl)]
      exact rotAngles_noacc h.2 _

theorem detStep_noValid {b : Option String × ℚ} {r : Region}
    (h : regionNoValid r) : detStep b r = b := by
  show (if pyFalsy (ocr_region r).1 = false ∧ b.2 < (ocr_region r).2
    then ocr_region r else b) = b
  rw [ocr_region_noValid h]
  split_ifs with hc
  · exact absurd hc.1 (by simp [pyFalsy])
  · rfl

theorem fold_detStep_noValid {cands : List Region}
    (h : ∀ r ∈ cands, regionNoValid r) :
    ∀ b : Option String × ℚ, cands.foldl detStep b = b := by
  induction cands with
  | nil => exact fun b => rfl
  | cons r rs ih =>
      intro b
      rw [List.foldl_cons, detStep_noValid (h r (List.mem_cons_self r rs))]
      exact ih (fun x hx => h x (List.mem_cons_of_mem r hx)) b

theorem tileGo_noValid {tiles : List Region}
    (h : ∀ r ∈ tiles, regionNoValid r) :
    ∀ b : Option String × ℚ, tileGo b tiles = b := by
  induction tiles with
  | nil => exact fun b => rfl
  | cons r rs ih =>
      intro b
      have hd : detStep b r = b := detStep_noValid (h r (List.mem_cons_self r rs))
      show (if 9/10 ≤ (detStep b r).2 then detStep b r
        else tileGo (detStep b r) rs) = b
      rw [hd]
      split_ifs with hc
      · rfl
      · exact ih (fun x hx => h x (List.mem_cons_of_mem r hx)) b

/-! ### Characterization of the running-best update -/

/-- The confidence after one `ocrStep` is a Python-`max` fold over exactly
the accepted tokens. -/
theorem ocrStep_conf_eq (b : Option String × ℚ) (t : Tok) :
    (ocrStep b t).2 =
      if accept t then pyMax b.2 (safe_conf t.conf) else b.2 := by
  by_cases ha : accept t
  · have h1 : ¬ pyStrip t.text.data = [] := ha.1
    have h2 : ¬ safe_conf t.conf < min_confidence := not_lt.mpr ha.2.1
    rw [if_pos ha]
    unfold ocrStep
    rw [if_neg h1, if_neg h2]
    by_cases hlt : b.2 < safe_conf t.conf
    · rw [if_pos ⟨ha.2.2, hlt⟩]
      unfold pyMax
      rw [if_pos hlt]
    · rw [if_neg (fun hc => hlt hc.2)]
      unfold pyMax
      rw [if_neg hlt]
  · rw [if_neg ha]
    unfold ocrStep
    split_ifs with h1 h2 h3
    · rfl
    · rfl
    · exact absurd ⟨h1, not_lt.mp h2, h3.1⟩ ha
    · rfl

/-- A candidate whose confidence does not strictly exceed the running best
leaves the whole state unchanged (ties keep the earlier candidate). -/
theorem ocrStep_tie {b : Option String × ℚ} {t : Tok}
    (h : safe_conf t.conf ≤ b.2) : ocrStep b t = b := by
  unfold ocrStep
  split_ifs with h1 h2 h3
  · rfl
  · rfl
  · exact absurd h3.2 (not_lt.mpr h)
  · rfl

/-- Same strictness for the detection endpoint's update. -/
theorem routeStep_tie {b p : Option String × ℚ} (h : p.2 ≤ b.2) :
    routeStep b p = b := by
  unfold routeStep
  split_ifs with hc
  · exact absurd hc.2 (not_lt.mpr h)
  · rfl

/-- One `ocrStep` never decreases the tracked confidence. -/
theorem ocrStep_conf_mono (b : Option String × ℚ) (t : Tok) :
    b.2 ≤ (ocrStep b t).2 := by
  rw [ocrStep_conf_eq]
  split_ifs with h
  · exact le_pyMax_left _ _
  · exact le_refl _

theorem fold_ocrStep_conf_mono (l : List Tok) :
    ∀ b : Option String × ℚ, b.2 ≤ (l.foldl ocrStep b).2 := by
  induction l with
  | nil => exact fun b => le_refl _
  | cons t ts ih =>
      intro b
      exact le_trans (ocrStep_conf_mono b t) (ih (ocrStep b t))

/-- The running maximum of the normalized confidences of the *accepted*
candidates of the list (`0` when there is none, exactly the loop's starting
`best_conf`). -/
def maxValid (l : List Tok) : ℚ :=
  l.foldl (fun m t => if accept t then pyMax m (safe_conf t.conf) else m) 0

theorem fold_ocrStep_conf_eq (l : List Tok) :
    ∀ b : Option String × ℚ,
      (l.foldl ocrStep b).2 =
        l.foldl (fun m t => if accept t then pyMax m (safe_conf t.conf) else m)
          b.2 := by
  induction l with
  | nil => exact fun b => rfl
  | cons t ts ih =>
      intro b
      rw [List.foldl_cons, List.foldl_cons, ih (ocrStep b t), ocrStep_conf_eq]

/-- Same strictness for `detect_plate`'s per-region update. -/
theorem detStep_tie {b : Option String × ℚ} {r : Region}
    (h : (ocr_region r).2 ≤ b.2) : detStep b r = b := by
  show (if pyFalsy (ocr_region r).1 = false ∧ b.2 < (ocr_region r).2
    then ocr_region r else b) = b
  split_ifs with hc
  · exact absurd hc.2 (not_lt.mpr h)
  · rfl

instance (r : Region) : Decidable (regionNoValid r) := by
  cases r with
  | fail => exact isTrue trivial
  | ok main rots =>
      show Decidable ((∀ t ∈ main, ¬ accept t) ∧
        ∀ o ∈ rots, ∀ t ∈ o.getD [], ¬ accept t)
      infer_instance

/-! ### Claim theorems for the detector orchestration -/

/-- Claim C1: on an input where no strategy at any stage produces a valid candidate
(all contour regions, all tiles and the full-image attempt), and likewise
whenever tesseract is unavailable, `detect_plate` returns exactly
`(None, 0.0)`; and whenever it returns a non-`None` text the accompanying
confidence lies in `[0,1]`. -/
theorem detect_plate_total_failure (cands tiles : List Region) (full : Region) :
    detect_plate false cands tiles full = (Option.none, 0) ∧
    ((∀ r ∈ cands, regionNoValid r) → (∀ r ∈ tiles, regionNoValid r) →
      regionNoValid full →
      detect_plate true cands tiles full = (Option.none, 0)) ∧
    (∀ (ready : Bool) (t : String) (c : ℚ),
      detect_plate ready cands tiles full = (Option.some t, c) →
      0 ≤ c ∧ c ≤ 1) := by
  refine ⟨rfl, ?_, ?_⟩
  · intro h1 h2 h3
    have hb1 : cands.foldl detStep (Option.none, 0) = (Option.none, 0) :=
      fold_detStep_noValid h1 _
    show (if (true : Bool) = false then ((Option.none : Option String), (0:ℚ))
      else if pyFalsy (cands.foldl detStep (Option.none, 0)).1 = false then
        cands.foldl detStep (Option.none, 0)
      else if pyFalsy (tileGo (cands.foldl detStep (Option.none, 0)) tiles).1
          = false then
        tileGo (cands.foldl detStep (Option.none, 0)) tiles
      else detStep (tileGo (cands.foldl detStep (Option.none, 0)) tiles) full)
      = (Option.none, 0)
    rw [if_neg (by simp), hb1, tileGo_noValid h2, if_neg (by simp [pyFalsy]),
      if_neg (by simp [pyFalsy]), detStep_noValid h3]
  · intro ready t c h
    have hg := detect_plate_good ready cands tiles full
    rw [h] at hg
    have hc := hg.2 t rfl
    refine ⟨le_trans (by norm_num [min_confidence]) hc.2.1, hc.2.2⟩

/-- Witness for C1: a concrete run in which every stage is exhausted without a
valid candidate (one blank-after-cleaning token, one failed rotation, no
tiles, a failing full-image pass), plus the uninitialized-recognizer case. -/
theorem detect_plate_total_failure_witness :
    detect_plate false [] [] Region.fail = (Option.none, 0) ∧
    detect_plate true [Region.ok [⟨"0B", ConfInput.str "95"⟩] [Option.none]]
      [] Region.fail = (Option.none, 0) :=
  ⟨(detect_plate_total_failure [] [] Region.fail).1,
   (detect_plate_total_failure _ _ _).2.1
     (by with_unfolding_all decide) (by with_unfolding_all decide)
     (by with_unfolding_all decide)⟩

/-- Claim C2: every non-`None` plate text returned by `detect_plate` or
`ocr_region` passed `is_valid_plate`; no raw unvalidated OCR token reaches
the pipeline boundary. -/
theorem detect_plate_validated_only (ready : Bool) (cands tiles : List Region)
    (full r : Region) (t : String) (c : ℚ) :
    (detect_plate ready cands tiles full = (Option.some t, c) →
      is_valid_plate t = true) ∧
    (ocr_region r = (Option.some t, c) → is_valid_plate t = true) := by
  constructor
  · intro h
    have hg := detect_plate_good ready cands tiles full
    rw [h] at hg
    exact (hg.2 t rfl).1
  · intro h
    have hg := ocr_region_good r
    rw [h] at hg
    exact (hg.2 t rfl).1

/-- Witness for C2: a concrete successful detection; the returned text
validates. -/
theorem detect_plate_validated_only_witness : is_valid_plate "ABC123" = true :=
  (detect_plate_validated_only true
      [Region.ok [⟨"ABC123", ConfInput.str "90"⟩] []] [] Region.fail
      Region.fail "ABC123" (9/10)).1
    (by with_unfolding_all decide)

/-- Claim C3: the running-best tracking logic shared by `ocr_region`,
`detect_plate` and the detection route replaces the current best only on a
strictly greater confidence (a tie keeps the earlier candidate, in all three
update shapes), the tracked best confidence never decreases along a token
sequence, and from the initial `(None, 0.0)` state it equals the running
maximum over the valid (accepted) candidates seen. -/
theorem running_best_spec (l : List Tok) (b : Option String × ℚ) (t : Tok)
    (p : Option String × ℚ) (r : Region) :
    (safe_conf t.conf ≤ b.2 → ocrStep b t = b) ∧
    ((ocr_region r).2 ≤ b.2 → detStep b r = b) ∧
    (p.2 ≤ b.2 → routeStep b p = b) ∧
    b.2 ≤ (l.foldl ocrStep b).2 ∧
    (l.foldl ocrStep (Option.none, 0)).2 = maxValid l :=
  ⟨fun h => ocrStep_tie h, fun h => detStep_tie h, fun h => routeStep_tie h,
   fold_ocrStep_conf_mono l b, fold_ocrStep_conf_eq l (Option.none, 0)⟩

/-- Witness for C3: a tie (`0.9` against a running best of `0.9`-equivalent
`9/10`) leaves every update shape unchanged. -/
theorem running_best_spec_witness :
    ocrStep (Option.some "AB123", 9/10) ⟨"XY12", ConfInput.str "70"⟩ =
      (Option.some "AB123", 9/10) ∧
    detStep (Option.some "AB123", 9/10) Region.fail =
      (Option.some "AB123", 9/10) ∧
    routeStep (Option.some "AB123", 9/10) (Option.some "Z1234", 1/2) =
      (Option.some "AB123", 9/10) :=
  ⟨(running_best_spec [] (Option.some "AB123", 9/10)
      ⟨"XY12", ConfInput.str "70"⟩ (Option.some "Z1234", 1/2) Region.fail).1
      (by with_unfolding_all decide),
   (running_best_spec [] (Option.some "AB123", 9/10)
      ⟨"XY12", ConfInput.str "70"⟩ (Option.some "Z1234", 1/2) Region.fail).2.1
      (by with_unfolding_all decide),
   (running_best_spec [] (Option.some "AB123", 9/10)
      ⟨"XY12", ConfInput.str "70"⟩ (Option.some "Z1234", 1/2) Region.fail).2.2.1
      (by with_unfolding_all decide)⟩

/-- Claim C10 (implicit): whenever `detect_plate` or `ocr_region` returns a
non-`None` text, the accompanying confidence is at least the
`min_confidence` floor of `0.5` — tokens below the floor are skipped before
they can become the running best. -/
theorem detect_plate_conf_floor (ready : Bool) (cands tiles : List Region)
    (full r : Region) (t : String) (c : ℚ) :
    (detect_plate ready cands tiles full = (Option.some t, c) →
      min_confidence ≤ c) ∧
    (ocr_region r = (Option.some t, c) → min_confidence ≤ c) := by
  constructor
  · intro h
    have hg := detect_plate_good ready cands tiles full
    rw [h] at hg
    exact (hg.2 t rfl).2.1
  · intro h
    have hg := ocr_region_good r
    rw [h] at hg
    exact (hg.2 t rfl).2.1

/-- Witness for C10: the concrete successful detection returns confidence
`9/10 ≥ 1/2`. -/
theorem detect_plate_conf_floor_witness : min_confidence ≤ (9/10 : ℚ) :=
  (detect_plate_conf_floor true
      [Region.ok [⟨"ABC123", ConfInput.str "90"⟩] []] [] Region.fail
      Region.fail "ABC123" (9/10)).1
    (by with_unfolding_all decide)

/-- Claim C4: for every raw confidence input, `_safe_conf` returns a value in
`[0,1]`; `None ↦ 0.0`, `"-1" ↦ 0.0`, `"80" ↦ 0.8` (percentage-scale inputs
divided by 100), and `0.8 ↦ 0.8` (already-fractional inputs pass through). -/
theorem safe_conf_spec :
    (∀ v : ConfInput, 0 ≤ safe_conf v ∧ safe_conf v ≤ 1) ∧
    safe_conf ConfInput.none = 0 ∧
    safe_conf (ConfInput.str "-1") = 0 ∧
    safe_conf (ConfInput.str "80") = 4/5 ∧
    safe_conf (ConfInput.num (4/5)) = 4/5 :=
  ⟨safe_conf_mem, rfl, by with_unfolding_all decide,
   by with_unfolding_all decide, by with_unfolding_all decide⟩

/-! ### Idempotence of `clean_text` -/

theorem map_id_of_mem {α : Type} {l : List α} {f : α → α}
    (h : ∀ a ∈ l, f a = a) : l.map f = l := by
  induction l with
  | nil => rfl
  | cons a t ih =>
      rw [List.map_cons, h a (List.mem_cons_self a t),
        ih (fun x hx => h x (List.mem_cons_of_mem a hx))]

theorem filter_all_of_mem {α : Type} {l : List α} {p : α → Bool}
    (h : ∀ a ∈ l, p a = true) : l.filter p = l := by
  induction l with
  | nil => rfl
  | cons a t ih =>
      rw [List.filter_cons_of_pos (h a (List.mem_cons_self a t)),
        ih (fun x hx => h x (List.mem_cons_of_mem a hx))]

/-- Every character of the canonical alphabet (uppercase ASCII letters and
ASCII digits) is a fixed point of both cleaning maps, is kept by the first
filter and survives the second. -/
theorem upDig_fix : ∀ c, (isUp c || isDig c) = true →
    transDigit c = c ∧ Char.toUpper c = c ∧ keepClass c = true ∧
      stripClass c = false := by
  intro c hc
  have h := upDig_forall
    (p := fun c => (transDigit c == c) && (Char.toUpper c == c) &&
      keepClass c && !(stripClass c))
    (by decide) c hc
  simp only [Bool.and_eq_true, beq_iff_eq, Bool.not_eq_true'] at h
  exact ⟨h.1.1.1, h.1.1.2, h.1.2, h.2⟩

/-- Every character surviving `cleanList` is canonical. -/
theorem mem_cleanList_good (l : List Char) :
    ∀ c ∈ cleanList l, (isUp c || isDig c) = true := by
  intro c hc
  have h1 := List.of_mem_filter hc
  have h3 := List.of_mem_filter (List.mem_of_mem_filter hc)
  have hs : stripClass c = false := by
    simpa [Bool.not_eq_true'] using h1
  have hh : (c == '-') = false ∧ isSpaceChar c = false := by
    have := hs
    unfold stripClass at this
    exact ⟨by cases hb : (c == '-') <;> simp [hb] at this ⊢,
           by cases hb : isSpaceChar c <;> simp [hb] at this ⊢⟩
  unfold keepClass at h3
  rcases Bool.or_eq_true_iff.mp h3 with h | h
  · rcases Bool.or_eq_true_iff.mp h with h | h
    · exact h
    · rw [hh.1] at h
      exact absurd h (by simp)
  · rw [hh.2] at h
    exact absurd h (by simp)

theorem cleanList_idem (l : List Char) :
    cleanList (cleanList l) = cleanList l := by
  have hg := mem_cleanList_good l
  show (((((cleanList l).map transDigit).map Char.toUpper).filter
    keepClass).filter fun c => !(stripClass c)) = cleanList l
  rw [map_id_of_mem (fun a ha => (upDig_fix a (hg a ha)).1),
    map_id_of_mem (fun a ha => (upDig_fix a (hg a ha)).2.1),
    filter_all_of_mem (fun a ha => (upDig_fix a (hg a ha)).2.2.1),
    filter_all_of_mem (fun a ha => by
      rw [(upDig_fix a (hg a ha)).2.2.2]; rfl)]

/-- Claim C7: text normalization is idempotent —
`clean_text (clean_text s) = clean_text s` for every string `s`. -/
theorem clean_text_idempotent (s : String) :
    clean_text (clean_text s) = clean_text s := by
  by_cases h0 : s = ""
  · rw [h0]
    rfl
  · have hs : clean_text s = String.mk (cleanList s.data) := by
      show (if s = "" then "" else String.mk (cleanList s.data)) = _
      rw [if_neg h0]
    rw [hs]
    by_cases h1 : String.mk (cleanList s.data) = ""
    · rw [h1]
      rfl
    · show (if String.mk (cleanList s.data) = "" then ""
        else String.mk (cleanList (String.mk (cleanList s.data)).data)) = _
      rw [if_neg h1]
      show String.mk (cleanList (cleanList s.data)) = _
      rw [cleanList_idem]

/-! ### Length boundaries of `is_valid_plate` -/

theorem patLetDig_len {l : List Char} (h : patLetDig l = true) :
    l.length ≤ 8 := by
  unfold patLetDig at h
  rcases Bool.and_eq_true_iff.mp h with ⟨hd, _⟩
  have hlens := of_decide_eq_true hd
  have hsplit := List.takeWhile_append_dropWhile (p := isUp) (l := l)
  have := congrArg List.length hsplit
  rw [List.length_append] at this
  omega

theorem patDigLet_len {l : List Char} (h : patDigLet l = true) :
    l.length ≤ 8 := by
  unfold patDigLet at h
  rcases Bool.and_eq_true_iff.mp h with ⟨hd, _⟩
  have hlens := of_decide_eq_true hd
  have hsplit := List.takeWhile_append_dropWhile (p := isDig) (l := l)
  have := congrArg List.length hsplit
  rw [List.length_append] at this
  omega

theorem patLetDigLet_len {l : List Char} (h : patLetDigLet l = true) :
    l.length ≤ 8 := by
  unfold patLetDigLet at h
  rcases Bool.and_eq_true_iff.mp h with ⟨hd, _⟩
  have hlens := of_decide_eq_true hd
  have hsplit := List.takeWhile_append_dropWhile (p := isUp) (l := l)
  have hsplit2 := List.takeWhile_append_dropWhile (p := isDig)
    (l := l.dropWhile isUp)
  have h1 := congrArg List.length hsplit
  have h2 := congrArg List.length hsplit2
  rw [List.length_append] at h1 h2
  omega

theorem patAlnum_len {l : List Char} (h : patAlnum l = true) :
    l.length ≤ 10 := by
  unfold patAlnum at h
  rcases Bool.and_eq_true_iff.mp h with ⟨hd, _⟩
  exact (of_decide_eq_true hd).2

/-- Counterexample to claim C6: a canonical string of length 12 (the upper
bound of the validator's explicit length check) does not validate. -/
theorem is_valid_plate_len12_counterexample :
    "AAAAAAAAAAAA".length = 12 ∧ is_valid_plate "AAAAAAAAAAAA" = false := by
  constructor
  · decide
  · decide

/-- Claim C6 (amended): the minimum boundary behaves as claimed — a
canonical string of length exactly 3 validates while every string of
length 2 is rejected — but the effective maximum accepted length is 10, not
12: a canonical string of length 10 validates and every string longer than
10 is rejected (the explicit length check allows up to 12, yet every
pattern of the list caps at 8 or 10 characters). -/
theorem is_valid_plate_length_boundary :
    is_valid_plate "AAA" = true ∧
    (∀ s : String, s.length = 2 → is_valid_plate s = false) ∧
    is_valid_plate "AAAAAAAAAA" = true ∧
    (∀ s : String, 10 < s.length → is_valid_plate s = false) := by
  refine ⟨by decide, ?_, by decide, ?_⟩
  · intro s h
    have hd : s.data.length = 2 := h
    show (if s = "" then false
      else if s.data.length < 3 || s.data.length > 12 then false
      else if !(s.data.any Char.isAlpha || s.data.any Char.isDigit) then false
      else patLetDig s.data || patDigLet s.data || patLetDigLet s.data ||
        patAlnum s.data) = false
    split_ifs with h1 h2 h3
    · rfl
    · rfl
    · rfl
    · exact absurd (by simp [hd]) h2
  · intro s h
    have hd : 10 < s.data.length := h
    show (if s = "" then false
      else if s.data.length < 3 || s.data.length > 12 then false
      else if !(s.data.any Char.isAlpha || s.data.any Char.isDigit) then false
      else patLetDig s.data || patDigLet s.data || patLetDigLet s.data ||
        patAlnum s.data) = false
    split_ifs with h1 h2 h3
    · rfl
    · rfl
    · rfl
    · have hp1 : patLetDig s.data = false := by
        cases hp : patLetDig s.data
        · rfl
        · exact absurd (patLetDig_len hp) (by omega)
      have hp2 : patDigLet s.data = false := by
        cases hp : patDigLet s.data
        · rfl
        · exact absurd (patDigLet_len hp) (by omega)
      have hp3 : patLetDigLet s.data = false := by
        cases hp : patLetDigLet s.data
        · rfl
        · exact absurd (patLetDigLet_len hp) (by omega)
      have hp4 : patAlnum s.data = false := by
        cases hp : patAlnum s.data
        · rfl
        · exact absurd (patAlnum_len hp) (by omega)
      rw [hp1, hp2, hp3, hp4]
      rfl

/-- Witness for C6 (amended): the boundary rejections at concrete lengths
2 and 11. -/
theorem is_valid_plate_length_boundary_witness :
    is_valid_plate "AB" = false ∧ is_valid_plate "AAAAAAAAAAA" = false :=
  ⟨is_valid_plate_length_boundary.2.1 "AB" (by decide),
   is_valid_plate_length_boundary.2.2.2 "AAAAAAAAAAA" (by decide)⟩

/-! ### The character-confusion corrector -/

/-- Every first-position digit is remapped to an uppercase letter. -/
theorem digit_firstFix_up : ∀ c, isDig c = true → isUp (firstFix c) = true :=
  dig_forall (by decide)

/-- Every trailing-position uppercase letter is remapped to a digit (the
trailing table covers all 26 letters). -/
theorem up_restFix_dig : ∀ c, isUp c = true → isDig (restFix c) = true :=
  up_forall (by decide)

/-- Counterexample to claim C5: the input `"0B123"` does not become
`"OB123"` — the trailing `B` is also in the confusion table (`B ↦ 8`), so the
corrector produces `"O8123"`. -/
theorem corrector_0B123_counterexample :
    clean_and_validate_plate_text "0B123" = some "O8123" ∧
    (Option.some "O8123" : Option String) ≠ some "OB123" := by
  exact ⟨by decide, by decide⟩

/-- Claim C5 (amended): for every cleaned string whose first character is a
digit and whose remaining characters include an uppercase letter, the
corrected output has a letter in position 0 and a digit in each such later
position; in particular `"0B123"` becomes `"O8123"` (first char `0 → O`,
trailing `B → 8`), not `"OB123"`. -/
theorem corrector_positional_asymmetry (c : Char) (rest : List Char)
    (h : isDig c = true) :
    isUp ((apply_rules (c :: rest)).headI) = true ∧
    (∀ (i : ℕ) (x : Char), rest.get? i = some x → isUp x = true →
      (apply_rules (c :: rest)).get? (i + 1) = some (restFix x) ∧
        isDig (restFix x) = true) ∧
    clean_and_validate_plate_text "0B123" = some "O8123" := by
  refine ⟨?_, ?_, by decide⟩
  · show isUp (firstFix c :: rest.map restFix).headI = true
    exact digit_firstFix_up c h
  · intro i x hx hup
    constructor
    · show (firstFix c :: rest.map restFix).get? (i + 1) = some (restFix x)
      rw [List.get?_cons_succ, List.get?_map, hx]
      rfl
    · exact up_restFix_dig x hup

/-- Witness for C5 (amended): the concrete input `'0' :: "B123"`. -/
theorem corrector_positional_asymmetry_witness :
    isUp ((apply_rules ('0' :: ['B', '1', '2', '3'])).headI) = true ∧
    (apply_rules ('0' :: ['B', '1', '2', '3'])).get? 1 = some (restFix 'B') ∧
    isDig (restFix 'B') = true :=
  have h := corrector_positional_asymmetry '0' ['B', '1', '2', '3'] (by decide)
  ⟨h.1, (h.2.1 0 'B' rfl (by decide)).1, (h.2.1 0 'B' rfl (by decide)).2⟩

/-- Claim C8: the character-confusion correction step is length-preserving
and positional — each position is mapped one-for-one (position 0 by the
first-character table, later positions by the trailing table); nothing is
deleted or reordered. -/
theorem apply_rules_length (l : List Char) :
    (apply_rules l).length = l.length ∧
    ∀ i : ℕ, (apply_rules l).get? i =
      (l.get? i).map (fun c => if i = 0 then firstFix c else restFix c) := by
  cases l with
  | nil => exact ⟨rfl, fun i => by cases i <;> rfl⟩
  | cons c rest =>
      constructor
      · show (firstFix c :: rest.map restFix).length = (c :: rest).length
        simp
      · intro i
        cases i with
        | zero => rfl
        | succ n =>
            show (rest.map restFix).get? n =
              ((c :: rest).get? (n + 1)).map _
            rw [List.get?_cons_succ, List.get?_map]
            cases hx : rest.get? n with
            | none => rfl
            | some x => simp

/-- Claim C9: any exception during preprocessing is caught and
`preprocess_image` returns the original unmodified input value instead of
propagating; the embedding is pure (the source operates on `image.copy()`),
so the input buffer is untouched by construction. -/
theorem preprocess_image_failure_policy {α : Type}
    (pipeline : α → Except Unit α) (image : α) (e : Unit)
    (h : pipeline image = Except.error e) :
    preprocess_image pipeline image = image := by
  unfold preprocess_image
  rw [h]

/-- Witness for C9: a concrete always-failing transform chain returns the
input unchanged. -/
theorem preprocess_image_failure_policy_witness :
    preprocess_image (fun _ : ℕ => Except.error ()) 7 = 7 :=
  preprocess_image_failure_policy _ 7 () rfl

